/- Verification development for lua_bufflib (src/lua_bufflib.c).
   The C buffer engine and the dynamic method-dispatch layer are shallowly
   embedded as executable Lean definitions; size_t arithmetic is modelled as
   natural numbers reduced modulo 2^64 exactly where the C code can wrap. -/
import Mathlib

namespace LuaBufflib

/-- The size_t modulus: the model fixes a 64-bit word. -/
def W : Nat := 2 ^ 64

/-- size_t addition, wrapping modulo `W` (C unsigned semantics). -/
def wadd (a b : Nat) : Nat := (a + b) % W

/-- size_t doubling, wrapping modulo `W` (the `B->size * 2` on line 154). -/
def wmul2 (a : Nat) : Nat := (a * 2) % W

/-- size_t subtraction, wrapping modulo `W`; correct for `a, b < W`. -/
def wsub (a b : Nat) : Nat := (W + a - b) % W

/-- Errors surfaced by the C code via `luaL_error` / `luaL_checkudata`. -/
inductive Err where
  | bufferTooLarge
  | typeMismatch
  deriving DecidableEq

/-- The Buffer struct (lines 130-137).  `data` holds the first `n` bytes of
    the backing char array (`n = data.length`), `size` is the capacity field
    and `store` is an identity token for the backing char array (`B->b`):
    it changes exactly when `prepbuffsize` allocates a fresh array. -/
structure Buffer where
  data : List Nat
  size : Nat
  store : Nat
  deriving DecidableEq

/-- LUAL_BUFFERSIZE from the host's luaconf.h (an external constant; 8192 is
    the common value).  No claim depends on the concrete number. -/
def LUAL_BUFFERSIZE : Nat := 8192

/-- buffinit (lines 175-181): empty contents, inline store, initial size. -/
def buffinit : Buffer :=
  { data := [], size := LUAL_BUFFERSIZE, store := 0 }

/-- The candidate new size computed on lines 154-156: double the capacity,
    and fall back to exactly `n + sz` when doubling is not big enough. -/
def growSize (B : Buffer) (sz : Nat) : Nat :=
  if wsub (wmul2 B.size) B.data.length < sz then
    wadd B.data.length sz
  else
    wmul2 B.size

/-- Lines 157-166: the overflow check (which fires before any field of the
    Buffer is written) and, on success, the reallocation: contents are copied
    unchanged, the store identity changes, the capacity becomes the
    candidate size. -/
def growBuffer (B : Buffer) (sz : Nat) : Buffer × Option Err :=
  if growSize B sz < B.data.length ∨ wsub (growSize B sz) B.data.length < sz then
    (B, some Err.bufferTooLarge)
  else
    ({ B with size := growSize B sz, store := B.store + 1 }, none)

/-- prepbuffsize (lines 150-169).  The first component is the Buffer's state
    when the function exits (normally or by `luaL_error`), the second is the
    raised error, if any. -/
def prepbuffsize (B : Buffer) (sz : Nat) : Buffer × Option Err :=
  if wsub B.size B.data.length < sz then
    growBuffer B sz
  else
    (B, none)

/-- One `prepbuffsize` + `memcpy` + `addsize` step, as performed for each
    argument of `addstrings` (lines 213-219). -/
def addlstring (B : Buffer) (s : List Nat) : Buffer × Option Err :=
  match prepbuffsize B s.length with
  | (B1, some e) => (B1, some e)
  | (B1, none) => ({ B1 with data := B1.data ++ s }, none)

/-- Lua values as far as the library observes them through `luaL_tolstring`. -/
inductive LuaValue where
  | vstr : List Nat → LuaValue
  | vnum : Int → LuaValue
  | vbool : Bool → LuaValue
  | vnil : LuaValue
  deriving DecidableEq

/-- Bytes of a Lean string, used to model the host's string formatting. -/
def strBytes (s : String) : List Nat := s.toList.map Char.toNat

/-- Bytes of the literal `nil` pushed on line 113. -/
def nilBytes : List Nat := [110, 105, 108]

/-- luaL_tolstring (lines 102-122): strings pass through, numbers use the
    host's formatting, booleans become `true`/`false`, nil becomes `nil`. -/
def tolstring : LuaValue → List Nat
  | .vstr s => s
  | .vnum i => strBytes (toString i)
  | .vbool b => strBytes (toString b)
  | .vnil => nilBytes

/-- addstrings (lines 204-220): left-to-right, each value is converted and
    copied before the next one is looked at; stops at the first error. -/
def addstrings : Buffer → List LuaValue → Buffer × Option Err
  | B, [] => (B, none)
  | B, v :: rest =>
    match addlstring B (tolstring v) with
    | (B1, some e) => (B1, some e)
    | (B1, none) => addstrings B1 rest

/-- The loop on lines 241-252 of addsepstrings: for every value except the
    last one, reserve `len + seplen` bytes, then copy the value followed by
    the separator. -/
def addsepLoop (sepb : List Nat) : Buffer → List (List Nat) → Buffer × Option Err
  | B, [] => (B, none)
  | B, s :: rest =>
    match prepbuffsize B (wadd s.length sepb.length) with
    | (B1, some e) => (B1, some e)
    | (B1, none) => addsepLoop sepb { B1 with data := B1.data ++ s ++ sepb } rest

/-- addsepstrings (lines 226-259): the separator is converted once; the loop
    handles arguments 3 .. numargs-1; afterwards argument `numargs` is added
    with no separator.  When no values are supplied (numargs = 2), argument
    `numargs` is the separator itself, so the separator gets appended. -/
def addsepstrings (B : Buffer) (sep : LuaValue) (vals : List LuaValue) : Buffer × Option Err :=
  match addsepLoop (tolstring sep) B ((vals.map tolstring).dropLast) with
  | (B1, some e) => (B1, some e)
  | (B1, none) => addlstring B1 ((vals.map tolstring).getLastD (tolstring sep))

/-- bufflib_tostring (lines 317-321): pushes the first `n` bytes of the store. -/
def bufflib_tostring (B : Buffer) : List Nat := B.data

/-- bufflib_len (lines 330-334). -/
def bufflib_len (B : Buffer) : Nat := B.data.length

/-- bufflib_equal (lines 402-411): both contents are materialized as strings
    and compared with `lua_rawequal`, i.e. byte-for-byte. -/
def bufflib_equal (B1 B2 : Buffer) : Bool :=
  bufflib_tostring B1 == bufflib_tostring B2

/-- bufflib_reset (lines 303-308): unreference the registry store and
    re-run buffinit. -/
def bufflib_reset (_B : Buffer) : Buffer := buffinit

/-- The heap of live Buffer userdata: an address is an index into the list.
    Needed to talk about aliasing (which userdata an entry point returns)
    and about allocation of brand-new Buffers. -/
abbrev Heap := List Buffer

/-- An operand of the `..` metamethod: either a Buffer userdata (by address)
    or some other Lua value. -/
inductive Operand where
  | obuf : Nat → Operand
  | oval : LuaValue → Operand
  deriving DecidableEq

/-- The isbuffer test (line 198): does the operand carry the Buffer metatable? -/
def isbufferOp : Operand → Bool
  | .obuf _ => true
  | .oval _ => false

/-- `luaL_tolstring` applied to an operand: a Buffer operand materializes its
    contents through the `__tostring` metamethod (lines 317-321), any other
    value goes through the ordinary conversion. -/
def operandString (h : Heap) : Operand → List Nat
  | .obuf a => (h.getD a buffinit).data
  | .oval v => tolstring v

/-- bufflib_add (lines 275-279): `getbuffer(L, 1)`, then addstrings over the
    remaining arguments, then `pushbuffer(L, 1)` — the returned stack value
    is the argument userdata itself.  Result: (heap at exit, error if any,
    address of the returned Buffer). -/
def bufflib_addH (h : Heap) (a : Nat) (args : List LuaValue) : Heap × Option Err × Nat :=
  match h[a]? with
  | none => (h, some Err.typeMismatch, 0)
  | some B =>
    match addstrings B args with
    | (B1, e) => (h.set a B1, e, a)

/-- bufflib_addsep (lines 290-294), analogous to `bufflib_addH`. -/
def bufflib_addsepH (h : Heap) (a : Nat) (sep : LuaValue) (vals : List LuaValue) :
    Heap × Option Err × Nat :=
  match h[a]? with
  | none => (h, some Err.typeMismatch, 0)
  | some B =>
    match addsepstrings B sep vals with
    | (B1, e) => (h.set a B1, e, a)

/-- bufflib_reset (lines 303-308) at the heap level: re-initialise the
    addressed Buffer and return the very same userdata. -/
def bufflib_resetH (h : Heap) (a : Nat) : Heap × Option Err × Nat :=
  match h[a]? with
  | none => (h, some Err.typeMismatch, 0)
  | some _ => (h.set a buffinit, none, a)

/-- bufflib_concat (lines 345-391), embedded with the defect on line 349
    kept intact: the condition reads `arg1IsBuffer && arg1IsBuffer`, so the
    "both Buffers" branch runs whenever the FIRST operand is a Buffer.  That
    branch allocates a brand-new Buffer (`newbuffer`, appended to the heap),
    materializes both operands and copies them in order.  The else branch is
    reached only when operand 1 is not a Buffer; its `arg1IsBuffer` test
    (line 375) is therefore dead and `getbuffer(L, 2)` either appends
    operand 1's string form to the second Buffer in place or raises a type
    error. -/
def bufflib_concatH (h : Heap) (x y : Operand) : Heap × Option Err × Nat :=
  let arg1IsBuffer := isbufferOp x
  if arg1IsBuffer && arg1IsBuffer then
    let destAddr := h.length
    let h2 := h ++ [buffinit]
    let str1 := operandString h2 x
    let str2 := operandString h2 y
    match prepbuffsize buffinit (wadd str1.length str2.length) with
    | (d, some e) => (h2.set destAddr d, some e, destAddr)
    | (d, none) => (h2.set destAddr { d with data := d.data ++ str1 ++ str2 }, none, destAddr)
  else
    match x, y with
    | .obuf a1, _ =>
      match addlstring (h.getD a1 buffinit) (operandString h y) with
      | (B1, e) => (h.set a1 B1, e, a1)
    | .oval _, .obuf a2 =>
      match addlstring (h.getD a2 buffinit) (operandString h x) with
      | (B1, e) => (h.set a2 B1, e, a2)
    | .oval _, .oval _ => (h, some Err.typeMismatch, 0)

/-- bufflib_newbuffer (lines 439-443): allocate a fresh Buffer and run
    addstrings over all supplied arguments. -/
def bufflib_newbufferH (h : Heap) (args : List LuaValue) : Heap × Option Err × Nat :=
  match addstrings buffinit args with
  | (B1, e) => (h ++ [B1], e, h.length)

/-- A value found in the metatable or the `bufflib` library table:
    a registered C function, or an `s_` adapter closure of bufflib_stringop
    whose upvalue is the string-library function it delegates to. -/
inductive TVal where
  | cfun : Nat → TVal
  | closure : Nat → TVal
  deriving DecidableEq

/-- A value found in the global `string` table: a function (identified by a
    token) or anything else. -/
inductive SVal where
  | sfun : Nat → SVal
  | sother : SVal
  deriving DecidableEq

/-- Association-list tables keyed by byte strings. -/
abbrev Table := List (List Nat × TVal)

/-- lua_setfield: the most recent binding wins on lookup. -/
def tset (t : Table) (k : List Nat) (v : TVal) : Table := (k, v) :: t

/-- The tables bufflib_index interacts with: the Buffer metatable, the
    `bufflib` module table and the global `string` table (absent when the
    global is not a table, line 504). -/
structure IndexState where
  mt : Table
  lib : Table
  strTable : Option (List (List Nat × SVal))
  deriving DecidableEq

/-- The bytes of the delegation marker `s_` (STRINGPREFIX, line 70). -/
def sMarker : List Nat := [115, 95]

/-- bufflib_index (lines 484-531).  A metatable hit is returned directly.
    Otherwise, a key starting with `s_` whose remainder names a function in
    the global `string` table yields a fresh stringop closure which is
    installed under the full key in BOTH the metatable and the bufflib
    module table and returned; in every other case nil is returned and
    nothing is installed. -/
def bufflib_index (st : IndexState) (key : List Nat) : IndexState × Option TVal :=
  match List.lookup key st.mt with
  | some v => (st, some v)
  | none =>
    if key.take 2 ≠ sMarker then
      (st, none)
    else
      match st.strTable with
      | none => (st, none)
      | some strT =>
        match List.lookup (key.drop 2) strT with
        | some (SVal.sfun id) =>
          ({ st with mt := tset st.mt key (TVal.closure id),
                     lib := tset st.lib key (TVal.closure id) },
           some (TVal.closure id))
        | some SVal.sother => (st, none)
        | none => (st, none)

/-- The data-model invariant of §3: the used length never exceeds the
    capacity, and the capacity is representable as a size_t. -/
def BuffInv (B : Buffer) : Prop := B.data.length ≤ B.size ∧ B.size < W

instance (B : Buffer) : Decidable (BuffInv B) :=
  inferInstanceAs (Decidable (_ ∧ _))

/-- Every live Buffer on the heap satisfies the invariant. -/
def HeapInv (h : Heap) : Prop := ∀ B ∈ h, BuffInv B

instance (h : Heap) : Decidable (HeapInv h) :=
  inferInstanceAs (Decidable (∀ B ∈ h, BuffInv B))

/-! ### Arithmetic facts about the size_t model -/

theorem W_pos : 0 < W := by decide

theorem wadd_lt_W (a b : Nat) : wadd a b < W := Nat.mod_lt _ W_pos

theorem wmul2_lt_W (a : Nat) : wmul2 a < W := Nat.mod_lt _ W_pos

/-- For in-range operands with no borrow, wrapping subtraction is exact. -/
theorem wsub_exact {a b : Nat} (hb : b ≤ a) (ha : a < W) : wsub a b = a - b := by
  unfold wsub W at *
  omega

theorem wadd_exact {a b : Nat} (h : a + b < W) : wadd a b = a + b := by
  unfold wadd
  exact Nat.mod_eq_of_lt h

theorem wmul2_exact {a : Nat} (h : a * 2 < W) : wmul2 a = a * 2 := by
  unfold wmul2
  exact Nat.mod_eq_of_lt h

theorem growSize_lt_W (B : Buffer) (sz : Nat) : growSize B sz < W := by
  unfold growSize
  split
  · exact wadd_lt_W _ _
  · exact wmul2_lt_W _

/-! ### Behaviour of prepbuffsize -/

/-- prepbuffsize never touches the stored bytes. -/
theorem prepbuffsize_data (B : Buffer) (sz : Nat) :
    (prepbuffsize B sz).1.data = B.data := by
  unfold prepbuffsize growBuffer
  split
  · split <;> rfl
  · rfl

/-- On the error exit, prepbuffsize has not mutated any field: the error is
    raised (line 158) before the assignments on lines 163-166 run. -/
theorem prepbuffsize_err (B : Buffer) (sz : Nat) (B1 : Buffer) (e : Err)
    (h : prepbuffsize B sz = (B1, some e)) : B1 = B := by
  unfold prepbuffsize growBuffer at h
  split at h
  · split at h
    · simp only [Prod.mk.injEq] at h
      exact h.1.symm
    · simp at h
  · simp at h

/-- On the normal exit of prepbuffsize there is room for `sz` more bytes
    and the capacity is still a representable size_t. -/
theorem prepbuffsize_ok (B : Buffer) (sz : Nat) (B1 : Buffer)
    (hn : B.data.length ≤ B.size) (hW : B.size < W)
    (h : prepbuffsize B sz = (B1, none)) :
    B.data.length + sz ≤ B1.size ∧ B1.size < W := by
  unfold prepbuffsize growBuffer at h
  split at h
  · split at h
    · simp at h
    · rename_i hok
      push_neg at hok
      obtain ⟨hge, hfit⟩ := hok
      have hlt : growSize B sz < W := growSize_lt_W B sz
      rw [wsub_exact hge hlt] at hfit
      simp only [Prod.mk.injEq] at h
      rw [← h.1]
      constructor
      · show B.data.length + sz ≤ growSize B sz
        omega
      · show growSize B sz < W
        exact hlt
  · rename_i hfit
    push_neg at hfit
    rw [wsub_exact hn hW] at hfit
    simp only [Prod.mk.injEq] at h
    rw [← h.1]
    exact ⟨by omega, hW⟩

/-- prepbuffsize preserves the data-model invariant on both exits. -/
theorem prepbuffsize_inv (B : Buffer) (sz : Nat) (hB : BuffInv B) :
    BuffInv (prepbuffsize B sz).1 := by
  rcases hp : prepbuffsize B sz with ⟨B1, e⟩
  cases e with
  | none =>
    have hok := prepbuffsize_ok B sz B1 hB.1 hB.2 hp
    have hd : B1.data = B.data := by
      have hq := prepbuffsize_data B sz
      rw [hp] at hq
      exact hq
    show BuffInv B1
    exact ⟨by rw [hd]; omega, hok.2⟩
  | some e =>
    show BuffInv B1
    rw [prepbuffsize_err B sz B1 e hp]
    exact hB

/-! ### Behaviour of addlstring / addstrings -/

/-- A successful addlstring appends exactly the given bytes. -/
theorem addlstring_data (B : Buffer) (s : List Nat) (B1 : Buffer)
    (h : addlstring B s = (B1, none)) : B1.data = B.data ++ s := by
  unfold addlstring at h
  rcases hp : prepbuffsize B s.length with ⟨B2, e⟩
  rw [hp] at h
  cases e with
  | none =>
    have hd : B2.data = B.data := by
      have hq := prepbuffsize_data B s.length
      rw [hp] at hq
      exact hq
    simp only [Prod.mk.injEq] at h
    rw [← h.1]
    simp [hd]
  | some e => simp at h

/-- A failing addlstring leaves the Buffer untouched. -/
theorem addlstring_err (B : Buffer) (s : List Nat) (B1 : Buffer) (e : Err)
    (h : addlstring B s = (B1, some e)) : B1 = B := by
  unfold addlstring at h
  rcases hp : prepbuffsize B s.length with ⟨B2, e2⟩
  rw [hp] at h
  cases e2 with
  | none => simp at h
  | some e2 =>
    simp only [Prod.mk.injEq] at h
    rw [← h.1]
    exact prepbuffsize_err B s.length B2 e2 hp

/-- On success, addlstring leaves at least the invariant intact; the new
    length fits because prepbuffsize guaranteed the room. -/
theorem addlstring_inv (B : Buffer) (s : List Nat) (hB : BuffInv B) :
    BuffInv (addlstring B s).1 := by
  unfold addlstring
  rcases hp : prepbuffsize B s.length with ⟨B2, e⟩
  cases e with
  | none =>
    have hok := prepbuffsize_ok B s.length B2 hB.1 hB.2 hp
    have hd : B2.data = B.data := by
      have hq := prepbuffsize_data B s.length
      rw [hp] at hq
      exact hq
    show BuffInv { B2 with data := B2.data ++ s }
    exact ⟨by simpa [hd] using hok.1, hok.2⟩
  | some e =>
    show BuffInv B2
    rw [prepbuffsize_err B s.length B2 e hp]
    exact hB

/-- A successful addstrings appends the display strings of all values in
    call order. -/
theorem addstrings_data (vals : List LuaValue) (B B1 : Buffer)
    (h : addstrings B vals = (B1, none)) :
    B1.data = B.data ++ (vals.map tolstring).flatten := by
  induction vals generalizing B with
  | nil =>
    unfold addstrings at h
    simp only [Prod.mk.injEq] at h
    rw [← h.1]
    simp
  | cons v rest ih =>
    unfold addstrings at h
    rcases ha : addlstring B (tolstring v) with ⟨B2, e⟩
    rw [ha] at h
    cases e with
    | none =>
      have hr := ih B2 h
      rw [hr, addlstring_data B (tolstring v) B2 ha]
      simp
    | some e => simp at h

/-- addstrings preserves the invariant on both exits. -/
theorem addstrings_inv (vals : List LuaValue) (B : Buffer) (hB : BuffInv B) :
    BuffInv (addstrings B vals).1 := by
  induction vals generalizing B with
  | nil => simpa [addstrings] using hB
  | cons v rest ih =>
    unfold addstrings
    rcases ha : addlstring B (tolstring v) with ⟨B2, e⟩
    have hB2 : BuffInv B2 := by
      have hq := addlstring_inv B (tolstring v) hB
      rw [ha] at hq
      exact hq
    cases e with
    | none => simpa using ih B2 hB2
    | some e => simpa using hB2

/-! ### Behaviour of addsepstrings -/

/-- The loop of addsepstrings appends, for each processed entry, the entry
    itself followed by one copy of the separator. -/
theorem addsepLoop_data (sepb : List Nat) (l : List (List Nat)) (B B1 : Buffer)
    (h : addsepLoop sepb B l = (B1, none)) :
    B1.data = B.data ++ (l.map (fun s => s ++ sepb)).flatten := by
  induction l generalizing B with
  | nil =>
    unfold addsepLoop at h
    simp only [Prod.mk.injEq] at h
    rw [← h.1]
    simp
  | cons s rest ih =>
    unfold addsepLoop at h
    rcases hp : prepbuffsize B (wadd s.length sepb.length) with ⟨B2, e⟩
    rw [hp] at h
    cases e with
    | none =>
      have hd : B2.data = B.data := by
        have hq := prepbuffsize_data B (wadd s.length sepb.length)
        rw [hp] at hq
        exact hq
      have hr := ih { B2 with data := B2.data ++ s ++ sepb } h
      rw [hr]
      simp [hd]
    | some e => simp at h

/-- The loop of addsepstrings preserves the invariant, provided each written
    chunk (value plus separator) has a representable size_t length. -/
theorem addsepLoop_inv (sepb : List Nat) (l : List (List Nat)) (B : Buffer)
    (hB : BuffInv B) (hl : ∀ s ∈ l, s.length + sepb.length < W) :
    BuffInv (addsepLoop sepb B l).1 := by
  induction l generalizing B with
  | nil => simpa [addsepLoop] using hB
  | cons s rest ih =>
    unfold addsepLoop
    rcases hp : prepbuffsize B (wadd s.length sepb.length) with ⟨B2, e⟩
    cases e with
    | none =>
      have hok := prepbuffsize_ok B (wadd s.length sepb.length) B2 hB.1 hB.2 hp
      have hd : B2.data = B.data := by
        have hq := prepbuffsize_data B (wadd s.length sepb.length)
        rw [hp] at hq
        exact hq
      have hww : wadd s.length sepb.length = s.length + sepb.length :=
        wadd_exact (hl s (by simp))
      rw [hww] at hok
      have hB2 : BuffInv { B2 with data := B2.data ++ s ++ sepb } := by
        refine ⟨?_, hok.2⟩
        show (B2.data ++ s ++ sepb).length ≤ B2.size
        simp [hd]
        omega
      simpa using ih _ hB2 (fun t ht => hl t (by simp [ht]))
    | some e =>
      show BuffInv B2
      rw [prepbuffsize_err B (wadd s.length sepb.length) B2 e hp]
      exact hB

/-- Splitting off the loop and the final unseparated write: for a nonempty
    list, writing every entry but the last followed by the separator and
    then the bare last entry produces exactly the separator-interleaved
    concatenation. -/
theorem sep_flatten_eq (sepb : List Nat) :
    ∀ (xs : List (List Nat)) (x d : List Nat),
      (((x :: xs).dropLast.map (fun s => s ++ sepb)).flatten) ++ (x :: xs).getLastD d
        = x ++ (xs.map (fun s => sepb ++ s)).flatten := by
  intro xs
  induction xs with
  | nil => intro x d; simp [List.getLastD_cons]
  | cons y ys ih =>
    intro x d
    have h1 : (x :: y :: ys).dropLast = x :: (y :: ys).dropLast := rfl
    rw [h1, List.getLastD_cons]
    simp only [List.map_cons, List.flatten_cons, List.append_assoc]
    rw [ih y x]

/-- A successful addsepstrings with at least one value appends the first
    value, then separator-value pairs, with no trailing separator. -/
theorem addsepstrings_data (B : Buffer) (sep v : LuaValue) (rest : List LuaValue)
    (B1 : Buffer) (h : addsepstrings B sep (v :: rest) = (B1, none)) :
    B1.data = B.data ++ tolstring v
      ++ (rest.map (fun u => tolstring sep ++ tolstring u)).flatten := by
  unfold addsepstrings at h
  rcases hl : addsepLoop (tolstring sep) B (((v :: rest).map tolstring).dropLast)
      with ⟨B2, e⟩
  rw [hl] at h
  cases e with
  | none =>
    have h2 := addlstring_data B2 _ B1 h
    have h3 := addsepLoop_data (tolstring sep) _ B B2 hl
    rw [h2, h3, List.append_assoc]
    have h4 := sep_flatten_eq (tolstring sep) (rest.map tolstring) (tolstring v)
      (tolstring sep)
    simp only [List.map_cons] at *
    rw [h4]
    simp [List.map_map, Function.comp_def]
  | some e => simp at h

/-- addsepstrings preserves the invariant on both exits, provided each
    value-plus-separator chunk has a representable size_t length. -/
theorem addsepstrings_inv (B : Buffer) (sep : LuaValue) (vals : List LuaValue)
    (hB : BuffInv B)
    (hl : ∀ v ∈ vals, (tolstring v).length + (tolstring sep).length < W) :
    BuffInv (addsepstrings B sep vals).1 := by
  unfold addsepstrings
  rcases hl2 : addsepLoop (tolstring sep) B ((vals.map tolstring).dropLast)
      with ⟨B2, e⟩
  have hB2 : BuffInv B2 := by
    have hq := addsepLoop_inv (tolstring sep) ((vals.map tolstring).dropLast) B hB ?_
    · rw [hl2] at hq
      exact hq
    · intro s hs
      have hs2 : s ∈ vals.map tolstring := List.dropLast_subset _ hs
      rcases List.mem_map.1 hs2 with ⟨u, hu, rfl⟩
      exact hl u hu
  cases e with
  | none => exact addlstring_inv B2 _ hB2
  | some e => exact hB2

/-! ### Heap-level facts -/

theorem BuffInv_buffinit : BuffInv buffinit := by decide

theorem HeapInv_set (h : Heap) (a : Nat) (B : Buffer)
    (hh : HeapInv h) (hB : BuffInv B) : HeapInv (h.set a B) := by
  intro C hC
  rcases List.mem_or_eq_of_mem_set hC with hm | rfl
  · exact hh C hm
  · exact hB

theorem HeapInv_append (h : Heap) (B : Buffer)
    (hh : HeapInv h) (hB : BuffInv B) : HeapInv (h ++ [B]) := by
  intro C hC
  rcases List.mem_append.1 hC with hm | hm
  · exact hh C hm
  · rw [List.mem_singleton.1 hm]
    exact hB

theorem HeapInv_getD (h : Heap) (a : Nat) (hh : HeapInv h) :
    BuffInv (h.getD a buffinit) := by
  rw [List.getD_eq_getElem?_getD]
  rcases hq : h[a]? with _ | B
  · exact BuffInv_buffinit
  · exact hh B (List.getElem?_mem hq)

/-- `newbuffer` does not change what the existing operands materialize to. -/
theorem operandString_append (h : Heap) (B : Buffer) (hB : B = buffinit) (z : Operand) :
    operandString (h ++ [B]) z = operandString h z := by
  cases z with
  | oval v => rfl
  | obuf a =>
    show ((h ++ [B]).getD a buffinit).data = (h.getD a buffinit).data
    rw [List.getD_eq_getElem?_getD, List.getD_eq_getElem?_getD, List.getElem?_append]
    by_cases hlt : a < h.length
    · rw [if_pos hlt]
    · rw [if_neg hlt]
      have h1 : h[a]? = none := List.getElem?_eq_none_iff.mpr (Nat.le_of_not_lt hlt)
      rw [h1]
      rcases hd : a - h.length with _ | k
      · simp [hB]
      · simp

/-- bufflib_concat keeps every live Buffer inside the invariant, provided
    the combined operand length is a representable size_t. -/
theorem concatH_inv (h : Heap) (x y : Operand) (hh : HeapInv h)
    (hxy : (operandString h x).length + (operandString h y).length < W) :
    HeapInv (bufflib_concatH h x y).1 := by
  unfold bufflib_concatH
  cases x with
  | obuf a1 =>
    simp only [isbufferOp, Bool.and_self, if_true]
    have hh2 : HeapInv (h ++ [buffinit]) := HeapInv_append h buffinit hh BuffInv_buffinit
    have hex : operandString (h ++ [buffinit]) (Operand.obuf a1) = operandString h (Operand.obuf a1) :=
      operandString_append h buffinit rfl _
    have hey : operandString (h ++ [buffinit]) y = operandString h y :=
      operandString_append h buffinit rfl _
    rcases hp : prepbuffsize buffinit
        (wadd (operandString (h ++ [buffinit]) (Operand.obuf a1)).length
              (operandString (h ++ [buffinit]) y).length) with ⟨d, e⟩
    cases e with
    | none =>
      have hok := prepbuffsize_ok _ _ d BuffInv_buffinit.1 BuffInv_buffinit.2 hp
      have hd : d.data = buffinit.data := by
        have hq := prepbuffsize_data buffinit
          (wadd (operandString (h ++ [buffinit]) (Operand.obuf a1)).length
                (operandString (h ++ [buffinit]) y).length)
        rw [hp] at hq
        exact hq
      apply HeapInv_set _ _ _ hh2
      refine ⟨?_, hok.2⟩
      have hw : wadd (operandString (h ++ [buffinit]) (Operand.obuf a1)).length
            (operandString (h ++ [buffinit]) y).length
          = (operandString (h ++ [buffinit]) (Operand.obuf a1)).length
            + (operandString (h ++ [buffinit]) y).length := by
        rw [hex, hey]
        exact wadd_exact hxy
      rw [hw] at hok
      show (d.data ++ operandString (h ++ [buffinit]) (Operand.obuf a1)
            ++ operandString (h ++ [buffinit]) y).length ≤ d.size
      have hd0 : d.data.length = 0 := by rw [hd]; rfl
      simp only [List.length_append]
      omega
    | some e =>
      apply HeapInv_set _ _ _ hh2
      rw [prepbuffsize_err _ _ d e hp]
      exact BuffInv_buffinit
  | oval v =>
    simp only [isbufferOp, Bool.and_self, if_false]
    cases y with
    | obuf a2 =>
      exact HeapInv_set _ _ _ hh (addlstring_inv _ _ (HeapInv_getD h a2 hh))
    | oval w => exact hh

/-! ### The claims -/

/-- Claim C1: for every sequence of values appended through the add/append
    family, `to_string()` of the Buffer equals the concatenation, in call
    order, of each value's display-string form — no matter how many internal
    reallocations occurred (the statement holds for every successful run of
    addstrings from a fresh Buffer, with any number of grow steps inside). -/
theorem c1_append_preserves_concat (vals : List LuaValue) (B1 : Buffer)
    (h : addstrings buffinit vals = (B1, none)) :
    bufflib_tostring B1 = (vals.map tolstring).flatten := by
  have hd := addstrings_data vals buffinit B1 h
  simpa [bufflib_tostring, buffinit] using hd

theorem c1_append_preserves_concat_witness :
    bufflib_tostring ⟨[97, 98, 99], 8192, 0⟩
      = ([LuaValue.vstr [97], LuaValue.vstr [98, 99]].map tolstring).flatten :=
  c1_append_preserves_concat [LuaValue.vstr [97], LuaValue.vstr [98, 99]]
    ⟨[97, 98, 99], 8192, 0⟩ (by decide)

/-- Claim C2: within representable size_t ranges, `prepbuffsize` leaves the
    Buffer (pointer, capacity and all) untouched when the free space
    suffices; otherwise it reallocates to exactly double the capacity,
    except that when even the doubled capacity leaves less than `sz` free
    bytes the new capacity is exactly `n + sz`. -/
theorem c2_growth_policy (B : Buffer) (sz : Nat)
    (hn : B.data.length ≤ B.size) (h2 : B.size * 2 < W)
    (h3 : B.data.length + sz < W) :
    (sz ≤ B.size - B.data.length → prepbuffsize B sz = (B, none)) ∧
    (B.size - B.data.length < sz →
      if B.size * 2 - B.data.length < sz then
        prepbuffsize B sz
          = ({ B with size := B.data.length + sz, store := B.store + 1 }, none)
      else
        prepbuffsize B sz
          = ({ B with size := B.size * 2, store := B.store + 1 }, none)) := by
  have hW : B.size < W := by omega
  have e0 : wsub B.size B.data.length = B.size - B.data.length := wsub_exact hn hW
  have e1 : wmul2 B.size = B.size * 2 := wmul2_exact h2
  have e2 : wsub (wmul2 B.size) B.data.length = B.size * 2 - B.data.length := by
    rw [e1]
    exact wsub_exact (by omega) h2
  constructor
  · intro hfit
    unfold prepbuffsize
    rw [e0, if_neg (by omega)]
  · intro hgrow
    by_cases hc : B.size * 2 - B.data.length < sz
    · rw [if_pos hc]
      have hg : growSize B sz = B.data.length + sz := by
        unfold growSize
        rw [e2, if_pos hc]
        exact wadd_exact h3
      have hnot : ¬ (growSize B sz < B.data.length
          ∨ wsub (growSize B sz) B.data.length < sz) := by
        push_neg
        rw [hg]
        refine ⟨by omega, ?_⟩
        rw [wsub_exact (by omega) h3]
        omega
      unfold prepbuffsize growBuffer
      rw [e0, if_pos hgrow, if_neg hnot, hg]
    · rw [if_neg hc]
      have hg : growSize B sz = B.size * 2 := by
        unfold growSize
        rw [e2, if_neg hc]
        exact e1
      have hnot : ¬ (growSize B sz < B.data.length
          ∨ wsub (growSize B sz) B.data.length < sz) := by
        push_neg
        rw [hg]
        refine ⟨by omega, ?_⟩
        rw [wsub_exact (by omega) h2]
        omega
      unfold prepbuffsize growBuffer
      rw [e0, if_pos hgrow, if_neg hnot, hg]

theorem c2_growth_policy_witness :
    (2 ≤ (4 : Nat) - 2
      ∧ prepbuffsize ⟨[97, 98], 4, 7⟩ 2 = (⟨[97, 98], 4, 7⟩, none))
    ∧ prepbuffsize ⟨[97, 98], 4, 7⟩ 5 = (⟨[97, 98], 8, 8⟩, none)
    ∧ prepbuffsize ⟨[97, 98], 4, 7⟩ 10 = (⟨[97, 98], 12, 8⟩, none) := by
  have hc := c2_growth_policy ⟨[97, 98], 4, 7⟩ 2 (by decide) (by decide) (by decide)
  have hd := c2_growth_policy ⟨[97, 98], 4, 7⟩ 5 (by decide) (by decide) (by decide)
  have he := c2_growth_policy ⟨[97, 98], 4, 7⟩ 10 (by decide) (by decide) (by decide)
  refine ⟨⟨by decide, hc.1 (by decide)⟩, ?_, ?_⟩
  · have hd2 := hd.2 (by decide)
    rw [if_neg (by decide)] at hd2
    exact hd2
  · have he2 := he.2 (by decide)
    rw [if_pos (by decide)] at he2
    exact he2

/-- Claim C3: whenever `prepbuffsize` fails with the "buffer too large"
    overflow error, the Buffer's visible state — backing store identity,
    capacity and used length — is exactly as before the call: the
    `luaL_error` on line 158 runs before any field assignment. -/
theorem c3_error_leaves_state (B : Buffer) (sz : Nat) (B1 : Buffer) (e : Err)
    (h : prepbuffsize B sz = (B1, some e)) :
    B1.store = B.store ∧ B1.size = B.size ∧ B1.data = B.data := by
  rw [prepbuffsize_err B sz B1 e h]
  exact ⟨rfl, rfl, rfl⟩

theorem c3_error_leaves_state_witness :
    (prepbuffsize ⟨[0], 8192, 0⟩ (W - 1)).1.store = 0
      ∧ (prepbuffsize ⟨[0], 8192, 0⟩ (W - 1)).1.size = 8192
      ∧ (prepbuffsize ⟨[0], 8192, 0⟩ (W - 1)).1.data = [0] := by
  have h : prepbuffsize ⟨[0], 8192, 0⟩ (W - 1)
      = (⟨[0], 8192, 0⟩, some Err.bufferTooLarge) := by decide
  have hc := c3_error_leaves_state ⟨[0], 8192, 0⟩ (W - 1) ⟨[0], 8192, 0⟩
    Err.bufferTooLarge h
  rw [h]
  exact hc

/-- Claim C4 (code_bug evidence): because line 349 tests `arg1IsBuffer`
    twice instead of testing both operands, `concat(buffer, "x")` takes the
    "both Buffers" branch: it allocates a brand-new Buffer (the heap grows
    from one to two entries), returns address 1 — not the argument Buffer at
    address 0 — and leaves the argument Buffer unmutated, contrary to the
    documented in-place append for a Buffer/non-Buffer pair. -/
theorem c4_concat_defect_eval :
    bufflib_concatH [⟨[97, 98], 8192, 0⟩] (Operand.obuf 0)
        (Operand.oval (LuaValue.vstr [120]))
      = ([⟨[97, 98], 8192, 0⟩, ⟨[97, 98, 120], 8192, 0⟩], none, 1) := by
  decide

/-- Claim C5 (counterexample): calling addsep with a Buffer and a separator
    but zero values raises no error at all; the Buffer IS modified — the
    separator itself is appended, because the final `tolstring(L, numargs)`
    on line 255 then reads the separator argument. -/
theorem c5_zero_values_no_arity_error :
    (addsepstrings buffinit (LuaValue.vstr [44]) []).2 = none
      ∧ (addsepstrings buffinit (LuaValue.vstr [44]) []).1.data = [44]
      ∧ (addsepstrings buffinit (LuaValue.vstr [44]) []).1 ≠ buffinit := by
  decide

/-- Claim C5 (amended): with zero values, addsep fails with no arity error;
    it behaves exactly like adding the separator as the single value: the
    separator's string form is appended to the Buffer once. -/
theorem c5_amended_zero_values_appends_sep (B : Buffer) (sep : LuaValue) :
    addsepstrings B sep [] = addlstring B (tolstring sep) := rfl

/-- Claim C6: for a separator and N ≥ 1 values, addsep appends exactly
    value 0's string form followed, for each later value, by the separator's
    string form and that value's string form — no trailing separator, and
    for N = 1 no separator byte at all. -/
theorem c6_addsep_interleaves (B : Buffer) (sep v : LuaValue)
    (rest : List LuaValue) (B1 : Buffer)
    (h : addsepstrings B sep (v :: rest) = (B1, none)) :
    B1.data = B.data ++ tolstring v
      ++ (rest.map (fun u => tolstring sep ++ tolstring u)).flatten :=
  addsepstrings_data B sep v rest B1 h

theorem c6_addsep_interleaves_witness :
    (⟨[97, 44, 98, 44, 99], 8192, 0⟩ : Buffer).data
      = buffinit.data ++ tolstring (LuaValue.vstr [97])
        ++ ([LuaValue.vstr [98], LuaValue.vstr [99]].map
             (fun u => tolstring (LuaValue.vstr [44]) ++ tolstring u)).flatten :=
  c6_addsep_interleaves buffinit (LuaValue.vstr [44]) (LuaValue.vstr [97])
    [LuaValue.vstr [98], LuaValue.vstr [99]] ⟨[97, 44, 98, 44, 99], 8192, 0⟩
    (by decide)

/-- Claim C7: Buffer equality is reflexive, symmetric, and holds exactly
    when the two Buffers materialize to the same byte string. -/
theorem c7_equal_equivalence (a b : Buffer) :
    bufflib_equal a a = true
      ∧ bufflib_equal a b = bufflib_equal b a
      ∧ (bufflib_equal a b = true ↔ bufflib_tostring a = bufflib_tostring b) := by
  refine ⟨?_, ?_, ?_⟩
  · simp [bufflib_equal]
  · by_cases hab : bufflib_tostring a = bufflib_tostring b
    · simp [bufflib_equal, hab]
    · have hba : bufflib_tostring b ≠ bufflib_tostring a := fun hq => hab hq.symm
      simp [bufflib_equal, beq_eq_false_iff_ne, hab, hba]
  · simp [bufflib_equal, beq_iff_eq]

/-- Claim C8: on a dispatch-table miss, a key carrying the `s_` marker whose
    remainder names a function in the string library yields an adapter
    closure that is installed under the full key in BOTH the metatable and
    the module table (so the very next lookup is a direct hit returning the
    same closure without touching the state); a key without the marker, a
    missing string table, or a remainder that is not bound to a function
    yields nil and installs nothing in either table. -/
theorem c8_lazy_dispatch_cache (st : IndexState) (key : List Nat)
    (hmiss : List.lookup key st.mt = none) :
    (∀ strT id, st.strTable = some strT → key.take 2 = sMarker →
        List.lookup (key.drop 2) strT = some (SVal.sfun id) →
        bufflib_index st key
          = ({ st with mt := tset st.mt key (TVal.closure id),
                       lib := tset st.lib key (TVal.closure id) },
             some (TVal.closure id))
          ∧ List.lookup key (tset st.mt key (TVal.closure id))
              = some (TVal.closure id)
          ∧ List.lookup key (tset st.lib key (TVal.closure id))
              = some (TVal.closure id)
          ∧ bufflib_index
              { st with mt := tset st.mt key (TVal.closure id),
                        lib := tset st.lib key (TVal.closure id) } key
            = ({ st with mt := tset st.mt key (TVal.closure id),
                         lib := tset st.lib key (TVal.closure id) },
               some (TVal.closure id)))
    ∧ (key.take 2 ≠ sMarker → bufflib_index st key = (st, none))
    ∧ (st.strTable = none → bufflib_index st key = (st, none))
    ∧ (∀ strT, st.strTable = some strT →
        (∀ id, List.lookup (key.drop 2) strT ≠ some (SVal.sfun id)) →
        bufflib_index st key = (st, none)) := by
  refine ⟨?_, ?_, ?_, ?_⟩
  · intro strT id hstr htake hfn
    have hinstall : bufflib_index st key
        = ({ st with mt := tset st.mt key (TVal.closure id),
                     lib := tset st.lib key (TVal.closure id) },
           some (TVal.closure id)) := by
      simp only [bufflib_index, hmiss, hstr, hfn]
      rw [if_neg (by simp [htake])]
    have hmt : List.lookup key (tset st.mt key (TVal.closure id))
        = some (TVal.closure id) := by
      simp [tset, List.lookup]
    have hlib : List.lookup key (tset st.lib key (TVal.closure id))
        = some (TVal.closure id) := by
      simp [tset, List.lookup]
    refine ⟨hinstall, hmt, hlib, ?_⟩
    simp only [bufflib_index]
    rw [hmt]
  · intro hne
    simp only [bufflib_index, hmiss]
    rw [if_pos hne]
  · intro hstr
    by_cases htake : key.take 2 ≠ sMarker
    · simp only [bufflib_index, hmiss]
      rw [if_pos htake]
    · simp only [bufflib_index, hmiss, hstr]
      rw [if_neg htake]
  · intro strT hstr hfn
    by_cases htake : key.take 2 ≠ sMarker
    · simp only [bufflib_index, hmiss]
      rw [if_pos htake]
    · simp only [bufflib_index, hmiss, hstr]
      rw [if_neg htake]
      rcases hlk : List.lookup (key.drop 2) strT with _ | sv
      · rfl
      · cases sv with
        | sfun id => exact absurd hlk (hfn id)
        | sother => rfl

theorem c8_lazy_dispatch_cache_witness :
    bufflib_index ⟨[], [], some [([114, 101, 112], SVal.sfun 3)]⟩
        [115, 95, 114, 101, 112]
      = (⟨[([115, 95, 114, 101, 112], TVal.closure 3)],
          [([115, 95, 114, 101, 112], TVal.closure 3)],
          some [([114, 101, 112], SVal.sfun 3)]⟩,
         some (TVal.closure 3))
    ∧ bufflib_index ⟨[([115, 95, 114, 101, 112], TVal.closure 3)],
          [([115, 95, 114, 101, 112], TVal.closure 3)],
          some [([114, 101, 112], SVal.sfun 3)]⟩
        [115, 95, 114, 101, 112]
      = (⟨[([115, 95, 114, 101, 112], TVal.closure 3)],
          [([115, 95, 114, 101, 112], TVal.closure 3)],
          some [([114, 101, 112], SVal.sfun 3)]⟩,
         some (TVal.closure 3)) := by
  have hc := (c8_lazy_dispatch_cache
      ⟨[], [], some [([114, 101, 112], SVal.sfun 3)]⟩ [115, 95, 114, 101, 112]
      (by decide)).1 [([114, 101, 112], SVal.sfun 3)] 3 rfl (by decide) (by decide)
  exact ⟨hc.1, hc.2.2.2⟩

/-- Claim C9: creation, prepbuffsize, add, addsep, reset and concat all keep
    every (live) Buffer inside the data-model invariant `0 ≤ n ≤ size`, on
    the normal exit and on the error exit alike.  (The readers tostring and
    len do not change any state.)  The two length side conditions say that
    the byte strings being written have representable size_t lengths, which
    is automatic for real C strings. -/
theorem c9_invariants (B : Buffer) (sz : Nat) (vals : List LuaValue)
    (sep : LuaValue) (h : Heap) (x y : Operand)
    (hB : BuffInv B) (hh : HeapInv h)
    (hsep : ∀ v ∈ vals, (tolstring v).length + (tolstring sep).length < W)
    (hxy : (operandString h x).length + (operandString h y).length < W) :
    BuffInv buffinit
      ∧ BuffInv (prepbuffsize B sz).1
      ∧ BuffInv (addstrings B vals).1
      ∧ BuffInv (addsepstrings B sep vals).1
      ∧ BuffInv (bufflib_reset B)
      ∧ HeapInv (bufflib_concatH h x y).1 :=
  ⟨BuffInv_buffinit,
   prepbuffsize_inv B sz hB,
   addstrings_inv vals B hB,
   addsepstrings_inv B sep vals hB hsep,
   BuffInv_buffinit,
   concatH_inv h x y hh hxy⟩

theorem c9_invariants_witness :
    BuffInv buffinit
      ∧ BuffInv (prepbuffsize ⟨[97], 8192, 0⟩ 5).1
      ∧ BuffInv (addstrings ⟨[97], 8192, 0⟩ [LuaValue.vstr [98]]).1
      ∧ BuffInv (addsepstrings ⟨[97], 8192, 0⟩ (LuaValue.vstr [44])
          [LuaValue.vstr [98]]).1
      ∧ BuffInv (bufflib_reset ⟨[97], 8192, 0⟩)
      ∧ HeapInv (bufflib_concatH [buffinit] (Operand.obuf 0)
          (Operand.oval (LuaValue.vstr [120]))).1 :=
  c9_invariants ⟨[97], 8192, 0⟩ 5 [LuaValue.vstr [98]] (LuaValue.vstr [44])
    [buffinit] (Operand.obuf 0) (Operand.oval (LuaValue.vstr [120]))
    (by decide) (by decide) (by decide) (by decide)

/-- Claim C10: the mutating entry points add, addsep and reset return the
    very userdata they were invoked on — the returned address equals the
    argument address and the heap gains no new Buffer — so the calls chain
    and the result aliases the argument. -/
theorem c10_mutators_return_argument (h : Heap) (a : Nat) (B : Buffer)
    (args : List LuaValue) (sep : LuaValue) (vals : List LuaValue)
    (hv : h[a]? = some B) :
    (bufflib_addH h a args).2.2 = a
      ∧ (bufflib_addH h a args).1.length = h.length
      ∧ (bufflib_addsepH h a sep vals).2.2 = a
      ∧ (bufflib_addsepH h a sep vals).1.length = h.length
      ∧ (bufflib_resetH h a).2.2 = a
      ∧ (bufflib_resetH h a).1.length = h.length := by
  unfold bufflib_addH bufflib_addsepH bufflib_resetH
  rw [hv]
  rcases h1 : addstrings B args with ⟨B1, e1⟩
  rcases h2 : addsepstrings B sep vals with ⟨B2, e2⟩
  simp [List.length_set]

theorem c10_mutators_return_argument_witness :
    (bufflib_addH [buffinit] 0 []).2.2 = 0
      ∧ (bufflib_addH [buffinit] 0 []).1.length = [buffinit].length
      ∧ (bufflib_addsepH [buffinit] 0 LuaValue.vnil []).2.2 = 0
      ∧ (bufflib_addsepH [buffinit] 0 LuaValue.vnil []).1.length = [buffinit].length
      ∧ (bufflib_resetH [buffinit] 0).2.2 = 0
      ∧ (bufflib_resetH [buffinit] 0).1.length = [buffinit].length :=
  c10_mutators_return_argument [buffinit] 0 buffinit [] LuaValue.vnil [] rfl

end LuaBufflib
